import Mathlib

/-!
# Verification of the blaze radix-tree router

A shallow embedding of the per-method path router (`node`, `Router`,
`insert`, `findChild`, `lookup`, `matchChild`, `splitPath` of the Go
source).  Handlers are opaque values of a type parameter `α`; Go's
`nil` handler is `Option.none`; Go's `map[string]string` parameter map
is an association list (`none` models the nil map, `some []` the empty
non-nil map).  Strings are Lean `String`s and all character-level
operations go through `String.data`, so every definition is executable.
-/

namespace Blaze

/-- `node` of the Go source: a radix-tree vertex with a (compressed) path
segment, an optional terminal handler, ordered children, a parameter name
and a wildcard flag. -/
inductive RNode (α : Type) : Type where
  | mk (path : String) (handler : Option α) (children : List (RNode α))
       (param : String) (wildcard : Bool) : RNode α

/-- The `path` field of a node. -/
def RNode.path {α : Type} : RNode α → String
  | .mk p _ _ _ _ => p

/-- The `handler` field of a node (`none` is Go's nil handler). -/
def RNode.handler {α : Type} : RNode α → Option α
  | .mk _ h _ _ _ => h

/-- The `children` field of a node. -/
def RNode.children {α : Type} : RNode α → List (RNode α)
  | .mk _ _ cs _ _ => cs

/-- The `param` field of a node. -/
def RNode.param {α : Type} : RNode α → String
  | .mk _ _ _ pn _ => pn

/-- The `wildcard` field of a node. -/
def RNode.wildcard {α : Type} : RNode α → Bool
  | .mk _ _ _ _ w => w

/-- Replace a node's handler, keeping every other field. -/
def RNode.setHandler {α : Type} : RNode α → α → RNode α
  | .mk p _ cs pn w, h => .mk p (some h) cs pn w

/-- Replace a node's children, keeping every other field. -/
def RNode.setChildren {α : Type} : RNode α → List (RNode α) → RNode α
  | .mk p h _ pn w, cs => .mk p h cs pn w

/-- Go's `&node{}`: the zero node. -/
def emptyNode {α : Type} : RNode α := .mk "" none [] "" false

/-- Parameter maps: Go's `map[string]string` as an association list. -/
abbrev Params := List (String × String)

/-- `params[k] = v`: overwrite an existing binding for `k`, else append. -/
def paramsSet : Params → String → String → Params
  | [], k, v => [(k, v)]
  | (k0, v0) :: ps, k, v =>
      if k0 == k then (k, v) :: ps else (k0, v0) :: paramsSet ps k v

/-- Read a binding from a parameter map (Go's `params[k]`). -/
def paramsGet (ps : Params) (k : String) : Option String :=
  (ps.find? (fun e => e.1 == k)).map (fun e => e.2)

/-- `strings.HasPrefix s (one-character prefix c)`: the first character
of `s` is `c`. -/
def startsWithChar (ch : Char) (s : String) : Bool :=
  match s.data with
  | c :: _ => c == ch
  | [] => false

/-- Go's `seg[1:]` for the single-byte sentinels used here: drop the
first character. -/
def dropFirstChar (s : String) : String :=
  match s.data with
  | _ :: rest => String.mk rest
  | [] => s

/-- A segment with no leading `:` or `*` sentinel. -/
def literalSeg (s : String) : Bool :=
  !(startsWithChar ':' s) && !(startsWithChar '*' s)

/-- Go's `strings.TrimPrefix(path, "/")`: remove one leading slash if
present. -/
def trimPrefixSlash (s : String) : String :=
  match s.data with
  | c :: rest => if c = '/' then String.mk rest else s
  | [] => s

/-- Go's `strings.Trim(path, "/")` on the character list: drop every
leading and trailing slash. -/
def trimSlashes (l : List Char) : List Char :=
  ((l.dropWhile (fun c => c == '/')).reverse.dropWhile (fun c => c == '/')).reverse

/-- Worker for `strings.Split(s, "/")`. -/
def splitOnSlashAux : List Char → List Char → List (List Char)
  | [], acc => [acc.reverse]
  | c :: cs, acc =>
      if c == '/' then acc.reverse :: splitOnSlashAux cs []
      else splitOnSlashAux cs (c :: acc)

/-- Go's `strings.Split(s, "/")` on a character list. -/
def splitOnSlash (l : List Char) : List (List Char) := splitOnSlashAux l []

/-- `splitPath` of the source: trim slashes from both ends, return no
segments for the empty result, else split on `/`. -/
def splitPath (s : String) : List String :=
  let t := trimSlashes s.data
  if t.isEmpty then [] else (splitOnSlash t).map String.mk

/-- Go's `strings.Join(segs, "/")`. -/
def joinSlash (segs : List String) : String := String.intercalate "/" segs

/-- The fresh child `insert` builds for a segment: a `:`-led segment
becomes a parameter node (path `":"`), a `*`-led segment a wildcard node
(path `"*"`), anything else a literal node. -/
def mkChild {α : Type} (seg : String) : RNode α :=
  if startsWithChar ':' seg then .mk ":" none [] (dropFirstChar seg) false
  else if startsWithChar '*' seg then .mk "*" none [] (dropFirstChar seg) true
  else .mk seg none [] "" false

/-- `findChild` of the source as a predicate on one child: an exact path
match, or a parameter child when the inserted segment is a parameter. -/
def findChildPred {α : Type} (seg : String) (c : RNode α) : Bool :=
  RNode.path c == seg || (RNode.path c == ":" && startsWithChar ':' seg)

/-- Replace the first child matching `p` by its `f`-image, or append
`new` when none matches: the functional form of `findChild` +
in-place mutation + `append` used by `insert`. -/
def replaceOrAppend {α : Type} (p : RNode α → Bool) (f : RNode α → RNode α)
    (new : RNode α) : List (RNode α) → List (RNode α)
  | [] => [new]
  | c :: cs => if p c then f c :: cs else c :: replaceOrAppend p f new cs

/-- The segment loop of `insert`: walk/create children along the
segments and set the handler at the last node reached. -/
def insert {α : Type} : RNode α → List String → α → RNode α
  | n, [], h => n.setHandler h
  | n, seg :: rest, h =>
      n.setChildren
        (replaceOrAppend (findChildPred seg) (fun c => insert c rest h)
          (insert (mkChild seg) rest h) n.children)

/-- `insert` of the source, string-level entry: `TrimPrefix` one slash;
an empty remainder sets the root handler, otherwise split and walk. -/
def insertGo {α : Type} (root : RNode α) (path : String) (h : α) : RNode α :=
  let p := trimPrefixSlash path
  if p = "" then root.setHandler h
  else insert root (splitPath p) h

/-- `matchChild` of the source: try an exact path match over all
children, then a parameter child (binding the segment text), then a
wildcard child. -/
def matchChild {α : Type} (cs : List (RNode α)) (seg : String) (ps : Params) :
    Option (RNode α × Params) :=
  match cs.find? (fun c => RNode.path c == seg) with
  | some c => some (c, ps)
  | none =>
    match cs.find? (fun c => RNode.path c == ":") with
    | some c => some (c, paramsSet ps (RNode.param c) seg)
    | none =>
      match cs.find? (fun c => RNode.wildcard c) with
      | some c => some (c, ps)
      | none => none

/-- The segment loop of `lookup`: descend segment by segment; a failed
match yields Go's `nil, nil`; a selected wildcard child captures the
remaining segments rejoined with `/` and returns at once. -/
def lookupSegs {α : Type} : RNode α → List String → Params → Option α × Option Params
  | n, [], ps => (n.handler, some ps)
  | n, seg :: rest, ps =>
      match matchChild n.children seg ps with
      | none => (none, none)
      | some (c, ps2) =>
          if c.wildcard then
            (c.handler, some (paramsSet ps2 c.param (joinSlash (seg :: rest))))
          else lookupSegs c rest ps2

/-- `Router` of the source: the per-method map of trees, as an
association list. -/
structure Router (α : Type) : Type where
  trees : List (String × RNode α)

/-- `newRouter()`: no trees yet. -/
def newRouter {α : Type} : Router α := ⟨[]⟩

/-- Read a method's tree (`r.trees[method]`, `none` for a missing
entry). -/
def treesGet {α : Type} (r : Router α) (m : String) : Option (RNode α) :=
  (r.trees.find? (fun e => e.1 == m)).map (fun e => e.2)

/-- Write a method's tree (`r.trees[method] = t`). -/
def treesSet {α : Type} : List (String × RNode α) → String → RNode α → List (String × RNode α)
  | [], m, t => [(m, t)]
  | e :: es, m, t => if e.1 == m then (m, t) :: es else e :: treesSet es m t

/-- `handle` of the source (the registration entry point behind
`Register`/`GET`/`POST`/…): create the method's root if absent, then
insert the pattern. -/
def handle {α : Type} (r : Router α) (m path : String) (h : α) : Router α :=
  let root := match treesGet r m with
    | none => emptyNode
    | some t => t
  ⟨treesSet r.trees m (insertGo root path h)⟩

/-- `lookup` of the source: `nil, nil` for an unknown method; the root
handler with a fresh empty map for an empty (after `TrimPrefix`) path;
otherwise the segment walk. -/
def lookup {α : Type} (r : Router α) (m path : String) : Option α × Option Params :=
  match treesGet r m with
  | none => (none, none)
  | some root =>
    let p := trimPrefixSlash path
    if p = "" then (root.handler, some [])
    else lookupSegs root (splitPath p) []

/-- Apply a whole registration sequence `(method, pattern, handler)` to
the fresh router. -/
def applyRegs {α : Type} (regs : List (String × String × α)) : Router α :=
  regs.foldl (fun r e => handle r e.1 e.2.1 e.2.2) newRouter

/-- The handler of the last registration for method `m` whose pattern
splits into exactly `segs`. -/
def lastHandlerFor {α : Type} (regs : List (String × String × α)) (m : String)
    (segs : List String) : Option α :=
  regs.foldl (fun acc e => if e.1 = m ∧ splitPath e.2.1 = segs then some e.2.2 else acc) none

/-- The walk underlying `lookup`: the node the traversal stops at (the
wildcard node, or the node after full consumption) and the parameter
map built on the way, or `none` when some step matches no child. -/
def walkSegs {α : Type} : RNode α → List String → Params → Option (RNode α × Params)
  | n, [], ps => some (n, ps)
  | n, seg :: rest, ps =>
      match matchChild n.children seg ps with
      | none => none
      | some (c, ps2) =>
          if c.wildcard then
            some (c, paramsSet ps2 c.param (joinSlash (seg :: rest)))
          else walkSegs c rest ps2

/-- Descend by exact literal child only, returning the node at the end
of a purely literal chain. -/
def findLit {α : Type} : RNode α → List String → Option (RNode α)
  | n, [] => some n
  | n, s :: rest =>
      match n.children.find? (fun c => RNode.path c == s) with
      | none => none
      | some c => findLit c rest

/-- The handler stored at the end of the exact-literal chain `segs`. -/
def handlerAtLit {α : Type} (t : RNode α) (segs : List String) : Option α :=
  (findLit t segs).bind RNode.handler

/-- The handler reachable for method `m` at literal chain `segs`. -/
def handlerAtRouter {α : Type} (r : Router α) (m : String) (segs : List String) : Option α :=
  (treesGet r m).bind (fun root => handlerAtLit root segs)

/-- `handlerAtLit` one level down, phrased on a child list. -/
def handlerAtLitCs {α : Type} (cs : List (RNode α)) (s : String) (rest : List String) :
    Option α :=
  match cs.find? (fun c => RNode.path c == s) with
  | none => none
  | some c => handlerAtLit c rest

/-- The method root `handle` starts from: the existing tree or a fresh
empty node. -/
def rootOf {α : Type} (r : Router α) (m : String) : RNode α :=
  match treesGet r m with
  | none => emptyNode
  | some t => t

/-- Shape invariant of trees the source builds: every wildcard node
has path `"*"`. -/
inductive WF {α : Type} : RNode α → Prop where
  | mk : ∀ (p : String) (h : Option α) (cs : List (RNode α)) (pn : String) (w : Bool),
      (w = true → p = "*") → (∀ c ∈ cs, WF c) → WF (.mk p h cs pn w)

/-- Every registered tree of the router satisfies `WF`. -/
def WFRouter {α : Type} (r : Router α) : Prop :=
  ∀ m root, treesGet r m = some root → WF root

section Lemmas

variable {α : Type}

@[simp] theorem RNode.path_setHandler (n : RNode α) (h : α) :
    (n.setHandler h).path = n.path := by cases n <;> rfl

@[simp] theorem RNode.handler_setHandler (n : RNode α) (h : α) :
    (n.setHandler h).handler = some h := by cases n <;> rfl

@[simp] theorem RNode.children_setHandler (n : RNode α) (h : α) :
    (n.setHandler h).children = n.children := by cases n <;> rfl

@[simp] theorem RNode.param_setHandler (n : RNode α) (h : α) :
    (n.setHandler h).param = n.param := by cases n <;> rfl

@[simp] theorem RNode.wildcard_setHandler (n : RNode α) (h : α) :
    (n.setHandler h).wildcard = n.wildcard := by cases n <;> rfl

@[simp] theorem RNode.path_setChildren (n : RNode α) (cs : List (RNode α)) :
    (n.setChildren cs).path = n.path := by cases n <;> rfl

@[simp] theorem RNode.handler_setChildren (n : RNode α) (cs : List (RNode α)) :
    (n.setChildren cs).handler = n.handler := by cases n <;> rfl

@[simp] theorem RNode.children_setChildren (n : RNode α) (cs : List (RNode α)) :
    (n.setChildren cs).children = cs := by cases n <;> rfl

@[simp] theorem RNode.param_setChildren (n : RNode α) (cs : List (RNode α)) :
    (n.setChildren cs).param = n.param := by cases n <;> rfl

@[simp] theorem RNode.wildcard_setChildren (n : RNode α) (cs : List (RNode α)) :
    (n.setChildren cs).wildcard = n.wildcard := by cases n <;> rfl

@[simp] theorem RNode.path_mk (p : String) (h : Option α) (cs : List (RNode α))
    (pn : String) (w : Bool) : (RNode.mk p h cs pn w).path = p := rfl

@[simp] theorem RNode.handler_mk (p : String) (h : Option α) (cs : List (RNode α))
    (pn : String) (w : Bool) : (RNode.mk p h cs pn w).handler = h := rfl

@[simp] theorem RNode.children_mk (p : String) (h : Option α) (cs : List (RNode α))
    (pn : String) (w : Bool) : (RNode.mk p h cs pn w).children = cs := rfl

@[simp] theorem RNode.param_mk (p : String) (h : Option α) (cs : List (RNode α))
    (pn : String) (w : Bool) : (RNode.mk p h cs pn w).param = pn := rfl

@[simp] theorem RNode.wildcard_mk (p : String) (h : Option α) (cs : List (RNode α))
    (pn : String) (w : Bool) : (RNode.mk p h cs pn w).wildcard = w := rfl

theorem insert_nil (n : RNode α) (h : α) : insert n [] h = n.setHandler h := rfl

theorem insert_cons (n : RNode α) (s : String) (rest : List String) (h : α) :
    insert n (s :: rest) h =
      n.setChildren
        (replaceOrAppend (findChildPred s) (fun c => insert c rest h)
          (insert (mkChild s) rest h) n.children) := rfl

@[simp] theorem path_insert (n : RNode α) (L : List String) (h : α) :
    (insert n L h).path = n.path := by
  cases L <;> simp [insert_nil, insert_cons]

@[simp] theorem wildcard_insert (n : RNode α) (L : List String) (h : α) :
    (insert n L h).wildcard = n.wildcard := by
  cases L <;> simp [insert_nil, insert_cons]

@[simp] theorem param_insert (n : RNode α) (L : List String) (h : α) :
    (insert n L h).param = n.param := by
  cases L <;> simp [insert_nil, insert_cons]

theorem handler_insert_cons (n : RNode α) (s : String) (rest : List String) (h : α) :
    (insert n (s :: rest) h).handler = n.handler := by
  simp [insert_cons]

theorem children_insert_cons (n : RNode α) (s : String) (rest : List String) (h : α) :
    (insert n (s :: rest) h).children =
      replaceOrAppend (findChildPred s) (fun c => insert c rest h)
        (insert (mkChild s) rest h) n.children := by
  simp [insert_cons]

theorem path_mkChild_literal (s : String) (hs : literalSeg s = true) :
    (mkChild (α := α) s).path = s := by
  simp only [literalSeg, Bool.and_eq_true, Bool.not_eq_true'] at hs
  simp [mkChild, hs.1, hs.2, RNode.path]

@[simp] theorem handler_mkChild (s : String) : (mkChild (α := α) s).handler = none := by
  unfold mkChild; split <;> [rfl; (split <;> rfl)]

@[simp] theorem children_mkChild (s : String) : (mkChild (α := α) s).children = [] := by
  unfold mkChild; split <;> [rfl; (split <;> rfl)]

theorem wildcard_mkChild_literal (s : String) (hs : literalSeg s = true) :
    (mkChild (α := α) s).wildcard = false := by
  simp only [literalSeg, Bool.and_eq_true, Bool.not_eq_true'] at hs
  simp [mkChild, hs.1, hs.2, RNode.wildcard]

theorem findChildPred_insert (s : String) (c : RNode α) (L : List String) (h : α) :
    findChildPred s (insert c L h) = findChildPred s c := by
  simp [findChildPred]

theorem literalSeg_ne_colon {s : String} (hs : literalSeg s = true) : s ≠ ":" := by
  intro he; subst he; exact absurd hs (by decide)

theorem literalSeg_ne_star {s : String} (hs : literalSeg s = true) : s ≠ "*" := by
  intro he; subst he; exact absurd hs (by decide)

theorem findChildPred_of_literal (s : String) (hs : literalSeg s = true) (c : RNode α) :
    findChildPred s c = (RNode.path c == s) := by
  simp only [literalSeg, Bool.and_eq_true, Bool.not_eq_true'] at hs
  simp [findChildPred, hs.1]

theorem data_mk (l : List Char) : (String.mk l).data = l := rfl

theorem data_empty : ("" : String).data = [] := rfl

theorem trimSlashes_cons_slash (l : List Char) : trimSlashes ('/' :: l) = trimSlashes l := by
  simp [trimSlashes, List.dropWhile_cons]

theorem trimSlashes_append_slash (l : List Char) : trimSlashes (l ++ ['/']) = trimSlashes l := by
  unfold trimSlashes
  rcases hd : l.dropWhile (fun c => c == '/') with _ | ⟨c, cs⟩
  · simp [List.dropWhile_append, hd]
  · simp [List.dropWhile_append, hd, List.dropWhile_cons]

theorem splitPath_data (p : String) :
    splitPath p =
      (if (trimSlashes p.data).isEmpty then []
       else (splitOnSlash (trimSlashes p.data)).map String.mk) := rfl

theorem splitPath_slash_append (p : String) : splitPath ("/" ++ p) = splitPath p := by
  rw [splitPath_data, splitPath_data]
  have hd : ("/" ++ p).data = '/' :: p.data := by
    have : ("/" ++ p).data = ("/" : String).data ++ p.data := String.data_append ..
    simpa using this
  rw [hd, trimSlashes_cons_slash]

theorem splitPath_append_slash (p : String) : splitPath (p ++ "/") = splitPath p := by
  rw [splitPath_data, splitPath_data]
  have hd : (p ++ "/").data = p.data ++ ['/'] := by
    have : (p ++ "/").data = p.data ++ ("/" : String).data := String.data_append ..
    simpa using this
  rw [hd, trimSlashes_append_slash]

theorem splitPath_trimPrefixSlash (p : String) :
    splitPath (trimPrefixSlash p) = splitPath p := by
  obtain ⟨l⟩ := p
  cases l with
  | nil => rfl
  | cons c rest =>
    show splitPath (if c = '/' then String.mk rest else String.mk (c :: rest)) = _
    by_cases hc : c = '/'
    · subst hc
      rw [if_pos rfl, splitPath_data, splitPath_data, data_mk, data_mk,
        trimSlashes_cons_slash]
    · rw [if_neg hc]

theorem splitPath_of_trim_empty {p : String} (hq : trimPrefixSlash p = "") :
    splitPath p = [] := by
  obtain ⟨l⟩ := p
  cases l with
  | nil => rfl
  | cons c rest =>
    rw [show trimPrefixSlash (String.mk (c :: rest)) =
          (if c = '/' then String.mk rest else String.mk (c :: rest)) from rfl] at hq
    by_cases hc : c = '/'
    · subst hc
      rw [if_pos rfl] at hq
      have hrest : rest = [] := congrArg String.data hq
      subst hrest
      rfl
    · rw [if_neg hc] at hq
      exact absurd (congrArg String.data hq) (by simp)

theorem insertGo_eq_insert (root : RNode α) (p : String) (h : α) :
    insertGo root p h = insert root (splitPath p) h := by
  unfold insertGo
  by_cases hq : trimPrefixSlash p = ""
  · rw [if_pos hq, splitPath_of_trim_empty hq, insert_nil]
  · rw [if_neg hq, splitPath_trimPrefixSlash]

theorem lookup_eq (r : Router α) (m p : String) :
    lookup r m p =
      (match treesGet r m with
       | none => (none, none)
       | some root => lookupSegs root (splitPath p) []) := by
  unfold lookup
  cases treesGet r m with
  | none => rfl
  | some root =>
    show (if trimPrefixSlash p = "" then (root.handler, some [])
          else lookupSegs root (splitPath (trimPrefixSlash p)) []) =
        lookupSegs root (splitPath p) []
    by_cases hq : trimPrefixSlash p = ""
    · rw [if_pos hq, splitPath_of_trim_empty hq]
      rfl
    · rw [if_neg hq, splitPath_trimPrefixSlash]

theorem setChildren_setChildren (n : RNode α) (a b : List (RNode α)) :
    (n.setChildren a).setChildren b = n.setChildren b := by cases n <;> rfl

theorem setHandler_setHandler (n : RNode α) (h1 h2 : α) :
    (n.setHandler h1).setHandler h2 = n.setHandler h2 := by cases n <;> rfl

theorem findChildPred_mkChild_self (s : String) (hs : startsWithChar '*' s = false) :
    findChildPred s (mkChild (α := α) s) = true := by
  unfold mkChild findChildPred
  by_cases hc : startsWithChar ':' s = true
  · rw [if_pos hc]
    simp [RNode.path, hc]
  · rw [if_neg hc, if_neg (by simp [hs])]
    simp [RNode.path]

theorem insert_insert : ∀ (L : List String) (t : RNode α) (h1 h2 : α),
    (∀ s ∈ L, startsWithChar '*' s = false) →
    insert (insert t L h1) L h2 = insert t L h2 := by
  intro L
  induction L with
  | nil =>
    intro t h1 h2 _
    rw [insert_nil, insert_nil, insert_nil, setHandler_setHandler]
  | cons s rest ih =>
    intro t h1 h2 hw
    have hs : startsWithChar '*' s = false := hw s (List.mem_cons_self ..)
    have hrest : ∀ x ∈ rest, startsWithChar '*' x = false :=
      fun x hx => hw x (List.mem_cons_of_mem _ hx)
    have key : ∀ cs : List (RNode α),
        replaceOrAppend (findChildPred s) (fun c => insert c rest h2)
            (insert (mkChild s) rest h2)
            (replaceOrAppend (findChildPred s) (fun c => insert c rest h1)
              (insert (mkChild s) rest h1) cs) =
          replaceOrAppend (findChildPred s) (fun c => insert c rest h2)
            (insert (mkChild s) rest h2) cs := by
      intro cs
      induction cs with
      | nil =>
        simp only [replaceOrAppend, findChildPred_insert,
          findChildPred_mkChild_self s hs, if_pos]
        rw [ih _ _ _ hrest]
      | cons c cs ihc =>
        by_cases hp : findChildPred s c = true
        · simp only [replaceOrAppend, hp, if_pos, findChildPred_insert]
          rw [ih _ _ _ hrest]
        · simp only [replaceOrAppend, hp, if_neg, Bool.not_eq_true]
          rw [ihc]
    rw [insert_cons, insert_cons, insert_cons, RNode.children_setChildren,
      setChildren_setChildren, key]

theorem handle_def (r : Router α) (m p : String) (h : α) :
    handle r m p h = ⟨treesSet r.trees m (insertGo (rootOf r m) p h)⟩ := rfl

theorem find_treesSet_self (l : List (String × RNode α)) (m : String) (t : RNode α) :
    (treesSet l m t).find? (fun e => e.1 == m) = some (m, t) := by
  induction l with
  | nil => simp [treesSet]
  | cons e es ih =>
    by_cases he : (e.1 == m) = true
    · simp [treesSet, he]
    · simp only [treesSet, he, Bool.false_eq_true, if_false]
      rw [List.find?_cons_of_neg _ (by simp [he]), ih]

theorem find_treesSet_other {m' m : String} (hne : m' ≠ m)
    (l : List (String × RNode α)) (t : RNode α) :
    (treesSet l m' t).find? (fun e => e.1 == m) = l.find? (fun e => e.1 == m) := by
  have hmm : (m' == m) = false := by simp [hne]
  induction l with
  | nil => simp [treesSet, hmm]
  | cons e es ih =>
    by_cases he : (e.1 == m') = true
    · have he1 : e.1 = m' := by simpa using he
      simp [treesSet, he, List.find?_cons, hmm, he1]
    · simp only [treesSet, he, Bool.false_eq_true, if_false]
      by_cases hem : (e.1 == m) = true
      · simp [List.find?_cons, hem]
      · rw [List.find?_cons_of_neg _ (by simp [hem]),
          List.find?_cons_of_neg _ (by simp [hem]), ih]

theorem treesSet_treesSet (l : List (String × RNode α)) (m : String) (t t' : RNode α) :
    treesSet (treesSet l m t) m t' = treesSet l m t' := by
  induction l with
  | nil => simp [treesSet]
  | cons e es ih =>
    by_cases he : (e.1 == m) = true
    · simp [treesSet, he]
    · simp only [treesSet, he, Bool.false_eq_true, if_false]
      rw [ih]

theorem treesGet_handle_self (r : Router α) (m p : String) (h : α) :
    treesGet (handle r m p h) m = some (insertGo (rootOf r m) p h) := by
  rw [handle_def]
  show ((treesSet r.trees m (insertGo (rootOf r m) p h)).find?
      (fun e => e.1 == m)).map (fun e => e.2) = _
  rw [find_treesSet_self]
  rfl

theorem treesGet_handle_other {m' m : String} (hne : m' ≠ m) (r : Router α)
    (p : String) (h : α) :
    treesGet (handle r m' p h) m = treesGet r m := by
  rw [handle_def]
  show ((treesSet r.trees m' (insertGo (rootOf r m') p h)).find?
      (fun e => e.1 == m)).map (fun e => e.2) = _
  rw [find_treesSet_other hne]
  rfl

theorem handle_handle (r : Router α) (m pat : String) (h1 h2 : α)
    (hw : ∀ s ∈ splitPath pat, startsWithChar '*' s = false) :
    handle (handle r m pat h1) m pat h2 = handle r m pat h2 := by
  have hroot : rootOf (handle r m pat h1) m = insertGo (rootOf r m) pat h1 := by
    unfold rootOf
    rw [treesGet_handle_self]
    rfl
  rw [handle_def (handle r m pat h1), hroot,
    show (handle r m pat h1).trees = treesSet r.trees m (insertGo (rootOf r m) pat h1)
      from rfl,
    treesSet_treesSet]
  have hcollapse : insertGo (insertGo (rootOf r m) pat h1) pat h2 =
      insertGo (rootOf r m) pat h2 := by
    rw [insertGo_eq_insert, insertGo_eq_insert, insertGo_eq_insert,
      insert_insert _ _ _ _ hw]
  rw [hcollapse, handle_def r m pat h2]

theorem findLit_nil (n : RNode α) : findLit n [] = some n := rfl

theorem findLit_cons (n : RNode α) (s : String) (rest : List String) :
    findLit n (s :: rest) =
      (match n.children.find? (fun c => RNode.path c == s) with
       | none => none
       | some c => findLit c rest) := rfl

theorem lookupSegs_nil (n : RNode α) (ps : Params) :
    lookupSegs n [] ps = (n.handler, some ps) := rfl

theorem lookupSegs_cons (n : RNode α) (s : String) (rest : List String) (ps : Params) :
    lookupSegs n (s :: rest) ps =
      (match matchChild n.children s ps with
       | none => (none, none)
       | some (c, ps2) =>
           if c.wildcard then
             (c.handler, some (paramsSet ps2 c.param (joinSlash (s :: rest))))
           else lookupSegs c rest ps2) := rfl

theorem walkSegs_nil (n : RNode α) (ps : Params) : walkSegs n [] ps = some (n, ps) := rfl

theorem walkSegs_cons (n : RNode α) (s : String) (rest : List String) (ps : Params) :
    walkSegs n (s :: rest) ps =
      (match matchChild n.children s ps with
       | none => none
       | some (c, ps2) =>
           if c.wildcard then
             some (c, paramsSet ps2 c.param (joinSlash (s :: rest)))
           else walkSegs c rest ps2) := rfl

theorem handlerAtLit_nil (t : RNode α) : handlerAtLit t [] = t.handler := rfl

theorem handlerAtLit_cons (t : RNode α) (s : String) (rest : List String) :
    handlerAtLit t (s :: rest) =
      (match t.children.find? (fun c => RNode.path c == s) with
       | none => none
       | some c => handlerAtLit c rest) := by
  unfold handlerAtLit
  rw [findLit_cons]
  cases t.children.find? (fun c => RNode.path c == s) <;> rfl

theorem replaceOrAppend_mem {p : RNode α → Bool} {f : RNode α → RNode α}
    {new : RNode α} :
    ∀ {cs : List (RNode α)} {c' : RNode α}, c' ∈ replaceOrAppend p f new cs →
      c' = new ∨ (∃ c ∈ cs, c' = f c) ∨ c' ∈ cs := by
  intro cs
  induction cs with
  | nil =>
    intro c' hmem
    simp only [replaceOrAppend, List.mem_singleton] at hmem
    exact Or.inl hmem
  | cons c cs ih =>
    intro c' hmem
    by_cases hp : p c = true
    · simp only [replaceOrAppend, hp, if_pos, List.mem_cons] at hmem
      rcases hmem with h1 | h2
      · exact Or.inr (Or.inl ⟨c, List.mem_cons_self .., h1⟩)
      · exact Or.inr (Or.inr (List.mem_cons_of_mem _ h2))
    · simp only [replaceOrAppend, hp, Bool.false_eq_true, if_false, List.mem_cons] at hmem
      rcases hmem with h1 | h2
      · subst h1; exact Or.inr (Or.inr (List.mem_cons_self ..))
      · rcases ih h2 with h3 | ⟨d, hd, h4⟩ | h5
        · exact Or.inl h3
        · exact Or.inr (Or.inl ⟨d, List.mem_cons_of_mem _ hd, h4⟩)
        · exact Or.inr (Or.inr (List.mem_cons_of_mem _ h5))

theorem WF.wild {n : RNode α} (hw : WF n) : n.wildcard = true → n.path = "*" := by
  cases hw with
  | mk p h cs pn w hwp hcs => exact hwp

theorem WF.child {n : RNode α} (hw : WF n) : ∀ c ∈ n.children, WF c := by
  cases hw with
  | mk p h cs pn w hwp hcs => exact hcs

theorem WF_of (n : RNode α) (h1 : n.wildcard = true → n.path = "*")
    (h2 : ∀ c ∈ n.children, WF c) : WF n := by
  cases n
  exact WF.mk _ _ _ _ _ h1 h2

theorem WF_emptyNode : WF (emptyNode (α := α)) :=
  WF.mk _ _ _ _ _ (by simp) (by simp)

theorem WF_mkChild (s : String) : WF (mkChild (α := α) s) := by
  unfold mkChild
  split
  · exact WF.mk _ _ _ _ _ (by simp) (by simp)
  · split
    · exact WF.mk _ _ _ _ _ (fun _ => rfl) (by simp)
    · exact WF.mk _ _ _ _ _ (by simp) (by simp)

theorem WF_setHandler {n : RNode α} (h : α) (hw : WF n) : WF (n.setHandler h) := by
  apply WF_of
  · simp only [RNode.wildcard_setHandler, RNode.path_setHandler]
    exact hw.wild
  · simp only [RNode.children_setHandler]
    exact hw.child

theorem WF_insert : ∀ (L : List String) (n : RNode α) (h : α), WF n → WF (insert n L h) := by
  intro L
  induction L with
  | nil =>
    intro n h hw
    rw [insert_nil]
    exact WF_setHandler h hw
  | cons s rest ih =>
    intro n h hw
    rw [insert_cons]
    apply WF_of
    · simp only [RNode.wildcard_setChildren, RNode.path_setChildren]
      exact hw.wild
    · intro c' hc'
      rw [RNode.children_setChildren] at hc'
      rcases replaceOrAppend_mem hc' with h1 | ⟨c, hc, h2⟩ | h3
      · subst h1; exact ih _ _ (WF_mkChild s)
      · subst h2; exact ih _ _ (hw.child c hc)
      · exact hw.child _ h3

theorem WF_insertGo {root : RNode α} (p : String) (h : α) (hw : WF root) :
    WF (insertGo root p h) := by
  rw [insertGo_eq_insert]
  exact WF_insert _ _ _ hw

theorem lookupSegs_of_findLit :
    ∀ (segs : List String) (n nf : RNode α) (ps : Params),
    WF n → (∀ s ∈ segs, literalSeg s = true) → findLit n segs = some nf →
    lookupSegs n segs ps = (nf.handler, some ps) := by
  intro segs
  induction segs with
  | nil =>
    intro n nf ps _ _ hf
    rw [findLit_nil] at hf
    cases hf
    rfl
  | cons s rest ih =>
    intro n nf ps hwf hlit hf
    have hs : literalSeg s = true := hlit s (List.mem_cons_self ..)
    cases hfind : n.children.find? (fun c => RNode.path c == s) with
    | none =>
      rw [findLit_cons] at hf
      rw [hfind] at hf
      exact absurd hf (by simp)
    | some c =>
      have hf2 : findLit c rest = some nf := by
        rw [findLit_cons] at hf
        rwa [hfind] at hf
      have hmem : c ∈ n.children := List.mem_of_find?_eq_some hfind
      have hpath : RNode.path c = s := by
        have := List.find?_some hfind
        simpa using this
      have hmc : matchChild n.children s ps = some (c, ps) := by
        unfold matchChild
        rw [hfind]
      have hcw : c.wildcard = false := by
        rcases Bool.eq_false_or_eq_true c.wildcard with hb | hb
        · exact absurd (hpath.symm.trans ((hwf.child c hmem).wild hb))
            (literalSeg_ne_star hs)
        · exact hb
      rw [lookupSegs_cons, hmc]
      simp only [hcw, Bool.false_eq_true, if_false]
      exact ih c nf ps (hwf.child c hmem)
        (fun x hx => hlit x (List.mem_cons_of_mem _ hx)) hf2

theorem lookupSegs_eq_walk :
    ∀ (segs : List String) (n : RNode α) (ps : Params),
    lookupSegs n segs ps =
      (match walkSegs n segs ps with
       | none => (none, none)
       | some x => (x.1.handler, some x.2)) := by
  intro segs
  induction segs with
  | nil => intro n ps; rfl
  | cons s rest ih =>
    intro n ps
    rw [lookupSegs_cons, walkSegs_cons]
    cases hmc : matchChild n.children s ps with
    | none => rfl
    | some cp =>
      obtain ⟨c, ps2⟩ := cp
      by_cases hcw : c.wildcard = true
      · simp [hcw]
      · simp only [Bool.not_eq_true] at hcw
        simp [hcw, ih]

theorem handlerAtLit_eq_cs (t : RNode α) (s : String) (rest : List String) :
    handlerAtLit t (s :: rest) = handlerAtLitCs t.children s rest := by
  rw [handlerAtLit_cons]
  unfold handlerAtLitCs
  rfl

theorem handlerAtLitCs_eq_of_find {cs : List (RNode α)} {s : String} {c : RNode α}
    (hfind : cs.find? (fun c => RNode.path c == s) = some c) (rest : List String) :
    handlerAtLitCs cs s rest = handlerAtLit c rest := by
  unfold handlerAtLitCs
  rw [hfind]

theorem handlerAtLitCs_eq_of_none {cs : List (RNode α)} {s : String}
    (hfind : cs.find? (fun c => RNode.path c == s) = none) (rest : List String) :
    handlerAtLitCs cs s rest = none := by
  unfold handlerAtLitCs
  rw [hfind]

theorem handlerAtLitCs_congr {cs1 cs2 : List (RNode α)} {s : String}
    (hfind : cs1.find? (fun c => RNode.path c == s) =
      cs2.find? (fun c => RNode.path c == s)) (rest : List String) :
    handlerAtLitCs cs1 s rest = handlerAtLitCs cs2 s rest := by
  unfold handlerAtLitCs
  rw [hfind]

theorem handlerAtLit_mkChild (s : String) (L : List String) :
    handlerAtLit (mkChild (α := α) s) L = none := by
  cases L with
  | nil => rw [handlerAtLit_nil, handler_mkChild]
  | cons x rest =>
    rw [handlerAtLit_eq_cs, children_mkChild]
    exact handlerAtLitCs_eq_of_none List.find?_nil rest

theorem find?_cons_pos (q : RNode α → Bool) (c : RNode α) (cs : List (RNode α))
    (h : q c = true) : (c :: cs).find? q = some c := by
  rw [List.find?_cons_of_pos _ h]

theorem find?_cons_neg (q : RNode α → Bool) (c : RNode α) (cs : List (RNode α))
    (h : q c = false) : (c :: cs).find? q = cs.find? q := by
  rw [List.find?_cons_of_neg _ (by simp [h])]

theorem path_mkChild_colon (s : String) (hc : startsWithChar ':' s = true) :
    (mkChild (α := α) s).path = ":" := by
  unfold mkChild
  rw [if_pos hc]
  rfl

theorem path_mkChild_star (s : String) (hc : startsWithChar ':' s = false)
    (hw : startsWithChar '*' s = true) : (mkChild (α := α) s).path = "*" := by
  unfold mkChild
  rw [if_neg (by simp [hc]), if_pos hw]
  rfl

theorem path_mkChild_plain (s : String) (hc : startsWithChar ':' s = false)
    (hw : startsWithChar '*' s = false) : (mkChild (α := α) s).path = s := by
  unfold mkChild
  rw [if_neg (by simp [hc]), if_neg (by simp [hw])]
  rfl

theorem find_replaceOrAppend_skip {s : String} {p : RNode α → Bool}
    {f : RNode α → RNode α} {new : RNode α}
    (hf : ∀ c, RNode.path (f c) = RNode.path c)
    (hp : ∀ c, p c = true → RNode.path c ≠ s)
    (hnew : RNode.path new ≠ s) :
    ∀ cs : List (RNode α),
    (replaceOrAppend p f new cs).find? (fun c => RNode.path c == s) =
      cs.find? (fun c => RNode.path c == s) := by
  intro cs
  induction cs with
  | nil =>
    show ([new].find? (fun c => RNode.path c == s)) = _
    rw [find?_cons_neg _ _ _ (by simp [hnew])]
  | cons c cs ih =>
    by_cases hpc : p c = true
    · simp only [replaceOrAppend, hpc, if_pos]
      have hcs : RNode.path c ≠ s := hp c hpc
      rw [find?_cons_neg _ _ _ (by simp [hf c, hcs]),
        find?_cons_neg _ _ _ (by simp [hcs])]
    · simp only [replaceOrAppend, hpc, Bool.false_eq_true, if_false]
      by_cases hcm : (RNode.path c == s) = true
      · rw [find?_cons_pos _ _ _ hcm, find?_cons_pos _ _ _ hcm]
      · rw [find?_cons_neg _ _ _ (by simp [hcm]),
          find?_cons_neg _ _ _ (by simp [hcm]), ih]

theorem handlerAtLit_insert :
    ∀ (L : List String) (t : RNode α) (Lp : List String) (h : α),
    (∀ s ∈ L, literalSeg s = true) →
    handlerAtLit (insert t Lp h) L = if Lp = L then some h else handlerAtLit t L := by
  intro L
  induction L with
  | nil =>
    intro t Lp h _
    cases Lp with
    | nil =>
      rw [if_pos rfl, insert_nil, handlerAtLit_nil, RNode.handler_setHandler]
    | cons sp Lrp =>
      rw [if_neg (by simp), handlerAtLit_nil, handlerAtLit_nil, handler_insert_cons]
  | cons s Lr ih =>
    intro t Lp h hlit
    have hs : literalSeg s = true := hlit s (List.mem_cons_self ..)
    have hlr : ∀ x ∈ Lr, literalSeg x = true :=
      fun x hx => hlit x (List.mem_cons_of_mem _ hx)
    cases Lp with
    | nil =>
      rw [if_neg (by simp), insert_nil, handlerAtLit_eq_cs, handlerAtLit_eq_cs,
        RNode.children_setHandler]
    | cons sp Lrp =>
      by_cases hss : sp = s
      · subst hss
        rw [handlerAtLit_eq_cs, children_insert_cons, handlerAtLit_eq_cs t]
        simp only [List.cons.injEq, true_and]
        have key : ∀ cs : List (RNode α),
            handlerAtLitCs
              (replaceOrAppend (findChildPred sp) (fun c => insert c Lrp h)
                (insert (mkChild sp) Lrp h) cs) sp Lr =
              if Lrp = Lr then some h else handlerAtLitCs cs sp Lr := by
          intro cs
          induction cs with
          | nil =>
            show handlerAtLitCs [insert (mkChild sp) Lrp h] sp Lr = _
            have hpos : (RNode.path (insert (mkChild sp) Lrp h) == sp) = true := by
              rw [path_insert, path_mkChild_literal sp hs]
              exact beq_self_eq_true sp
            rw [handlerAtLitCs_eq_of_find (find?_cons_pos _ _ _ hpos) Lr,
              ih (mkChild sp) Lrp h hlr, handlerAtLit_mkChild,
              handlerAtLitCs_eq_of_none List.find?_nil Lr]
          | cons c cs ihc =>
            by_cases hpc : findChildPred sp c = true
            · have hpath : RNode.path c = sp := by
                rw [findChildPred_of_literal sp hs] at hpc
                simpa using hpc
              simp only [replaceOrAppend, hpc, if_pos]
              rw [handlerAtLitCs_eq_of_find
                    (find?_cons_pos _ _ _ (by rw [path_insert]; simp [hpath])) Lr,
                handlerAtLitCs_eq_of_find
                    (find?_cons_pos _ _ _ (by simp [hpath])) Lr,
                ih c Lrp h hlr]
            · have hcs : (RNode.path c == sp) = false := by
                rw [findChildPred_of_literal sp hs] at hpc
                simpa using hpc
              simp only [replaceOrAppend, hpc, Bool.false_eq_true, if_false]
              rw [handlerAtLitCs_congr (find?_cons_neg _ _ _ hcs) Lr, ihc,
                @handlerAtLitCs_congr α (c :: cs) cs sp (find?_cons_neg _ _ _ hcs) Lr]
        exact key t.children
      · rw [handlerAtLit_eq_cs, children_insert_cons,
          if_neg (by simp [hss]), handlerAtLit_eq_cs t]
        apply handlerAtLitCs_congr
        apply find_replaceOrAppend_skip
        · intro c; rw [path_insert]
        · intro c hc
          rcases (Bool.or_eq_true _ _).mp hc with h1 | h2
          · have hc1 : RNode.path c = sp := by simpa using h1
            rw [hc1]; exact hss
          · have hc2 : RNode.path c = ":" := by
              simpa using ((Bool.and_eq_true _ _).mp h2).1
            rw [hc2]; exact Ne.symm (literalSeg_ne_colon hs)
        · rw [path_insert]
          cases hcol : startsWithChar ':' sp with
          | true =>
            rw [path_mkChild_colon sp hcol]
            exact Ne.symm (literalSeg_ne_colon hs)
          | false =>
            cases hst : startsWithChar '*' sp with
            | true =>
              rw [path_mkChild_star sp hcol hst]
              exact Ne.symm (literalSeg_ne_star hs)
            | false =>
              rw [path_mkChild_plain sp hcol hst]
              exact hss

theorem handlerAtRouter_def (r : Router α) (m : String) (segs : List String) :
    handlerAtRouter r m segs = (treesGet r m).bind (fun root => handlerAtLit root segs) := rfl

theorem handlerAtLit_emptyNode (segs : List String) :
    handlerAtLit (emptyNode (α := α)) segs = none := by
  cases segs with
  | nil => rfl
  | cons s rest =>
    rw [handlerAtLit_eq_cs]
    exact handlerAtLitCs_eq_of_none List.find?_nil rest

theorem handlerAtRouter_handle (r : Router α) (mh m p : String) (hh : α)
    (segs : List String) (hlit : ∀ s ∈ segs, literalSeg s = true) :
    handlerAtRouter (handle r mh p hh) m segs =
      if mh = m ∧ splitPath p = segs then some hh else handlerAtRouter r m segs := by
  by_cases hm : mh = m
  · subst hm
    rw [handlerAtRouter_def, treesGet_handle_self]
    show handlerAtLit (insertGo (rootOf r mh) p hh) segs = _
    rw [insertGo_eq_insert, handlerAtLit_insert segs (rootOf r mh) (splitPath p) hh hlit]
    by_cases hsp : splitPath p = segs
    · rw [if_pos hsp, if_pos ⟨rfl, hsp⟩]
    · rw [if_neg hsp, if_neg (by simp [hsp]), handlerAtRouter_def]
      unfold rootOf
      cases htr : treesGet r mh with
      | none =>
        show handlerAtLit (emptyNode (α := α)) segs = none
        exact handlerAtLit_emptyNode segs
      | some root => rfl
  · rw [handlerAtRouter_def, treesGet_handle_other hm, if_neg (by simp [hm]),
      handlerAtRouter_def]

theorem handlerAtRouter_applyRegs :
    ∀ (regs : List (String × String × α)) (r0 : Router α) (m : String) (segs : List String),
    (∀ s ∈ segs, literalSeg s = true) →
    handlerAtRouter (regs.foldl (fun r e => handle r e.1 e.2.1 e.2.2) r0) m segs =
      regs.foldl
        (fun acc e => if e.1 = m ∧ splitPath e.2.1 = segs then some e.2.2 else acc)
        (handlerAtRouter r0 m segs) := by
  intro regs
  induction regs with
  | nil => intro r0 m segs _; rfl
  | cons e regs ih =>
    intro r0 m segs hlit
    rw [List.foldl_cons, List.foldl_cons, ih _ _ _ hlit,
      handlerAtRouter_handle _ _ _ _ _ _ hlit]

theorem WFRouter_handle {r : Router α} (hr : WFRouter r) (mh p : String) (hh : α) :
    WFRouter (handle r mh p hh) := by
  intro m root hroot
  by_cases hm : mh = m
  · subst hm
    rw [treesGet_handle_self] at hroot
    cases hroot
    apply WF_insertGo
    unfold rootOf
    cases htr : treesGet r mh with
    | none => exact WF_emptyNode
    | some t => exact hr _ _ htr
  · rw [treesGet_handle_other hm] at hroot
    exact hr _ _ hroot

theorem WFRouter_newRouter : WFRouter (newRouter (α := α)) := by
  intro m root h
  simp [treesGet, newRouter] at h

theorem WFRouter_applyRegs (regs : List (String × String × α)) :
    WFRouter (applyRegs regs) := by
  have haux : ∀ (l : List (String × String × α)) (r0 : Router α), WFRouter r0 →
      WFRouter (l.foldl (fun r e => handle r e.1 e.2.1 e.2.2) r0) := by
    intro l
    induction l with
    | nil => intro r0 h; exact h
    | cons e l ih =>
      intro r0 h
      rw [List.foldl_cons]
      exact ih _ (WFRouter_handle h _ _ _)
  exact haux regs newRouter WFRouter_newRouter

theorem lookup_of_lastHandler (regs : List (String × String × α)) (m p : String) (h : α)
    (hlit : ∀ s ∈ splitPath p, literalSeg s = true)
    (hlast : lastHandlerFor regs m (splitPath p) = some h) :
    lookup (applyRegs regs) m p = (some h, some []) := by
  have hinv := handlerAtRouter_applyRegs regs newRouter m (splitPath p) hlit
  have h0 : handlerAtRouter (newRouter (α := α)) m (splitPath p) = none := rfl
  rw [h0] at hinv
  have heq : handlerAtRouter (applyRegs regs) m (splitPath p) = some h := hinv.trans hlast
  rw [handlerAtRouter_def] at heq
  cases htr : treesGet (applyRegs regs) m with
  | none =>
    rw [htr] at heq
    exact absurd heq (by simp)
  | some root =>
    rw [htr] at heq
    have heq2 : handlerAtLit root (splitPath p) = some h := heq
    unfold handlerAtLit at heq2
    cases hfl : findLit root (splitPath p) with
    | none =>
      rw [hfl] at heq2
      exact absurd heq2 (by simp)
    | some nf =>
      rw [hfl] at heq2
      have hh : RNode.handler nf = some h := heq2
      have hlk : lookup (applyRegs regs) m p = lookupSegs root (splitPath p) [] := by
        rw [lookup_eq, htr]
      rw [hlk,
        lookupSegs_of_findLit (splitPath p) root nf []
          (WFRouter_applyRegs regs _ _ htr) hlit hfl, hh]

theorem replaceOrAppend_nil (p : RNode α → Bool) (f : RNode α → RNode α)
    (new : RNode α) : replaceOrAppend p f new [] = [new] := rfl

theorem lookupSegs_insert_chain :
    ∀ (segs : List String) (n : RNode α) (h : α) (ps : Params),
    n.children = [] → (∀ s ∈ segs, literalSeg s = true) →
    lookupSegs (insert n segs h) segs ps = (some h, some ps) := by
  intro segs
  induction segs with
  | nil =>
    intro n h ps _ _
    rw [insert_nil, lookupSegs_nil, RNode.handler_setHandler]
  | cons s rest ih =>
    intro n h ps hnc hlit
    have hs : literalSeg s = true := hlit s (List.mem_cons_self ..)
    rw [lookupSegs_cons, children_insert_cons, hnc, replaceOrAppend_nil]
    have hpos : (RNode.path (insert (mkChild (α := α) s) rest h) == s) = true := by
      rw [path_insert, path_mkChild_literal s hs]
      exact beq_self_eq_true s
    have hmc : matchChild [insert (mkChild (α := α) s) rest h] s ps =
        some (insert (mkChild s) rest h, ps) := by
      unfold matchChild
      rw [find?_cons_pos _ _ _ hpos]
    rw [hmc]
    have hwc : (insert (mkChild (α := α) s) rest h).wildcard = false := by
      rw [wildcard_insert, wildcard_mkChild_literal s hs]
    simp only [hwc, Bool.false_eq_true, if_false]
    exact ih (mkChild s) h ps (children_mkChild s)
      (fun x hx => hlit x (List.mem_cons_of_mem _ hx))

theorem startsWithChar_colon_mk (pname : String) :
    startsWithChar ':' (String.mk (':' :: pname.data)) = true := rfl

theorem mkChild_param_mk (pname : String) :
    mkChild (α := α) (String.mk (':' :: pname.data)) = RNode.mk ":" none [] pname false := by
  unfold mkChild
  rw [if_pos (startsWithChar_colon_mk pname)]
  rfl

theorem lookupSegs_param_chain :
    ∀ (pre : List String) (n : RNode α) (post : List String) (pname x : String)
      (h : α) (ps : Params),
    n.children = [] →
    (∀ s ∈ pre, literalSeg s = true) → (∀ s ∈ post, literalSeg s = true) →
    x ≠ ":" →
    lookupSegs (insert n (pre ++ String.mk (':' :: pname.data) :: post) h)
        (pre ++ x :: post) ps =
      (some h, some (paramsSet ps pname x)) := by
  intro pre
  induction pre with
  | nil =>
    intro n post pname x h ps hnc hpre hpost hx
    rw [List.nil_append, List.nil_append, lookupSegs_cons, children_insert_cons, hnc,
      replaceOrAppend_nil]
    have hpc : RNode.path (insert (mkChild (α := α) (String.mk (':' :: pname.data))) post h)
        = ":" := by
      rw [path_insert, mkChild_param_mk, RNode.path_mk]
    have hne : (RNode.path (insert (mkChild (α := α) (String.mk (':' :: pname.data))) post h)
        == x) = false := by
      rw [hpc]
      exact beq_eq_false_iff_ne.mpr (Ne.symm hx)
    have hmc : matchChild [insert (mkChild (α := α) (String.mk (':' :: pname.data))) post h]
        x ps =
        some (insert (mkChild (String.mk (':' :: pname.data))) post h,
          paramsSet ps pname x) := by
      unfold matchChild
      rw [find?_cons_neg _ _ _ hne, List.find?_nil,
        find?_cons_pos _ _ _ (by rw [hpc]; exact beq_self_eq_true ":")]
      simp [param_insert, mkChild_param_mk]
    rw [hmc]
    have hwc : (insert (mkChild (α := α) (String.mk (':' :: pname.data))) post h).wildcard
        = false := by
      rw [wildcard_insert, mkChild_param_mk, RNode.wildcard_mk]
    simp only [hwc, Bool.false_eq_true, if_false]
    exact lookupSegs_insert_chain post (mkChild (String.mk (':' :: pname.data))) h _
      (children_mkChild _) hpost
  | cons s pre ih =>
    intro n post pname x h ps hnc hpre hpost hx
    have hs : literalSeg s = true := hpre s (List.mem_cons_self ..)
    rw [List.cons_append, List.cons_append, lookupSegs_cons, children_insert_cons, hnc,
      replaceOrAppend_nil]
    have hpos : (RNode.path
        (insert (mkChild (α := α) s) (pre ++ String.mk (':' :: pname.data) :: post) h)
        == s) = true := by
      rw [path_insert, path_mkChild_literal s hs]
      exact beq_self_eq_true s
    have hmc : matchChild
        [insert (mkChild (α := α) s) (pre ++ String.mk (':' :: pname.data) :: post) h]
        s ps =
        some (insert (mkChild s) (pre ++ String.mk (':' :: pname.data) :: post) h, ps) := by
      unfold matchChild
      rw [find?_cons_pos _ _ _ hpos]
    rw [hmc]
    have hwc : (insert (mkChild (α := α) s)
        (pre ++ String.mk (':' :: pname.data) :: post) h).wildcard = false := by
      rw [wildcard_insert, wildcard_mkChild_literal s hs]
    simp only [hwc, Bool.false_eq_true, if_false]
    exact ih (mkChild s) post pname x h ps (children_mkChild s)
      (fun y hy => hpre y (List.mem_cons_of_mem _ hy)) hpost hx

end Lemmas

section Claims

/-- C1 (counterexample): registering the same named-wildcard pattern
`/files/*rest` twice is not idempotent and not last-write-wins:
`findChild` never matches an existing `*rest` child, so the second
registration appends a duplicate wildcard child and a matching lookup
returns the FIRST handler (1), while a single registration of the same
pattern returns the latest handler (2). -/
theorem c1_counterexample :
    lookup (handle (handle (newRouter (α := Nat)) "GET" "/files/*rest" 1)
        "GET" "/files/*rest" 2) "GET" "/files/a" = (some 1, some [("rest", "a")]) ∧
    lookup (handle (newRouter (α := Nat)) "GET" "/files/*rest" 2) "GET" "/files/a"
      = (some 2, some [("rest", "a")]) :=
  ⟨rfl, rfl⟩

/-- C1 (amended): for every method and every pattern whose segments are
all literal or parameter segments (no `*`-led wildcard segment),
registering twice yields exactly the router of a single registration of
the second handler, so the tree structure is unchanged and every
subsequent lookup behaves as after the single registration of `h2`. -/
theorem c1_register_idempotent_last_write_wins {α : Type} (r : Router α)
    (m pat : String) (h1 h2 : α)
    (hw : ∀ s ∈ splitPath pat, startsWithChar '*' s = false) :
    handle (handle r m pat h1) m pat h2 = handle r m pat h2 ∧
    ∀ q : String, lookup (handle (handle r m pat h1) m pat h2) m q
      = lookup (handle r m pat h2) m q := by
  refine ⟨handle_handle r m pat h1 h2 hw, fun q => ?_⟩
  rw [handle_handle r m pat h1 h2 hw]

/-- C1 (witness): the amended idempotence theorem at the concrete
parameter pattern `/users/:id`. -/
theorem c1_register_idempotent_witness :
    handle (handle (newRouter (α := Nat)) "GET" "/users/:id" 1) "GET" "/users/:id" 2
      = handle (newRouter (α := Nat)) "GET" "/users/:id" 2 :=
  (c1_register_idempotent_last_write_wins (newRouter (α := Nat)) "GET" "/users/:id" 1 2
    (by decide)).1

/-- C2: child-selection precedence literal > parameter > wildcard, on
the spec's scenario: with `GET /a/:x/b` and `GET /a/c/b` registered,
`/a/c/b` hits the literal route, `/a/z/b` the parameter route with
`x = "z"`, and `/a/c` is not-found (nil handler); moreover a parameter
child is preferred over a wildcard child and a literal child over a
wildcard child. -/
theorem c2_precedence :
    lookup (handle (handle (newRouter (α := Nat)) "GET" "/a/:x/b" 1) "GET" "/a/c/b" 2)
        "GET" "/a/c/b" = (some 2, some []) ∧
    lookup (handle (handle (newRouter (α := Nat)) "GET" "/a/:x/b" 1) "GET" "/a/c/b" 2)
        "GET" "/a/z/b" = (some 1, some [("x", "z")]) ∧
    (lookup (handle (handle (newRouter (α := Nat)) "GET" "/a/:x/b" 1) "GET" "/a/c/b" 2)
        "GET" "/a/c").1 = none ∧
    lookup (handle (handle (newRouter (α := Nat)) "GET" "/w/:p" 3) "GET" "/w/*rest" 4)
        "GET" "/w/q" = (some 3, some [("p", "q")]) ∧
    lookup (handle (handle (newRouter (α := Nat)) "GET" "/v/*w" 5) "GET" "/v/lit" 6)
        "GET" "/v/lit" = (some 6, some []) :=
  ⟨rfl, rfl, rfl, rfl, rfl⟩

/-- C3 (counterexample): the claim fails "regardless of what other
routes are registered": (a) a literal route `/users/settings` shadows
`/users/:id`, so `/users/settings` returns the literal handler 2 and no
parameter binding instead of handler 1 with `id = "settings"`; (b) even
with `/users/:id` as the only route, the path `/users/:` exact-matches
the parameter node's stored path `":"` and returns handler 5 with an
empty map instead of binding `id = ":"`. -/
theorem c3_counterexample :
    lookup (handle (handle (newRouter (α := Nat)) "GET" "/users/:id" 1)
        "GET" "/users/settings" 2) "GET" "/users/settings" = (some 2, some []) ∧
    lookup (handle (newRouter (α := Nat)) "GET" "/users/:id" 5) "GET" "/users/:"
      = (some 5, some []) :=
  ⟨rfl, rfl⟩

/-- C3 (amended): when a pattern with exactly one parameter segment is
the only route registered (tree built by inserting exactly that
pattern), every same-length path agreeing on the literal segments and
whose parameter-position segment is not the literal `":"` resolves to
the registered handler with the parameter name bound to that segment's
text; concretely, `/users/:id` then `/users/123` gives
`params["id"] = "123"`. -/
theorem c3_single_param_capture {α : Type} (h : α) (pre post : List String)
    (pname x : String)
    (hpre : ∀ s ∈ pre, literalSeg s = true) (hpost : ∀ s ∈ post, literalSeg s = true)
    (hx : x ≠ ":") :
    lookupSegs (insert emptyNode (pre ++ String.mk (':' :: pname.data) :: post) h)
        (pre ++ x :: post) [] = (some h, some [(pname, x)]) ∧
    ∀ hv : α, lookup (handle (newRouter (α := α)) "GET" "/users/:id" hv) "GET" "/users/123"
      = (some hv, some [("id", "123")]) := by
  constructor
  · exact lookupSegs_param_chain pre emptyNode post pname x h [] rfl hpre hpost hx
  · intro hv
    rfl

/-- C3 (witness): the amended capture theorem at `/users/:id` and path
`/users/123`. -/
theorem c3_single_param_capture_witness :
    lookup (handle (newRouter (α := Nat)) "GET" "/users/:id" 7) "GET" "/users/123"
      = (some 7, some [("id", "123")]) :=
  (c3_single_param_capture (7 : Nat) ["users"] [] "id" "123"
    (by decide) (by decide) (by decide)).2 7

/-- C4: a wildcard match is terminal: whenever `matchChild` selects a
wildcard child for the current segment, the lookup immediately returns
that child's handler with the wildcard name bound to all the remaining
segments rejoined with `/`, with no further descent; concretely
`/files/*rest` on `/files/a/b/c.txt` yields `rest = "a/b/c.txt"`. -/
theorem c4_wildcard_terminal {α : Type} :
    (∀ (n c : RNode α) (seg : String) (rest : List String) (ps ps2 : Params),
      matchChild n.children seg ps = some (c, ps2) → c.wildcard = true →
      lookupSegs n (seg :: rest) ps =
        (c.handler, some (paramsSet ps2 c.param (joinSlash (seg :: rest))))) ∧
    ∀ h : α, lookup (handle newRouter "GET" "/files/*rest" h) "GET" "/files/a/b/c.txt"
      = (some h, some [("rest", "a/b/c.txt")]) := by
  constructor
  · intro n c seg rest ps ps2 hmc hcw
    rw [lookupSegs_cons, hmc]
    simp [hcw]
  · intro h
    rfl

/-- C4 (witness): the wildcard-terminal theorem at a concrete node with
one wildcard child capturing two remaining segments. -/
theorem c4_wildcard_terminal_witness :
    lookupSegs (RNode.mk "files" none [RNode.mk "*" (some (9 : Nat)) [] "w" true] "" false)
        ["a", "b"] [] = (some 9, some [("w", "a/b")]) :=
  (c4_wildcard_terminal (α := Nat)).1
    (RNode.mk "files" none [RNode.mk "*" (some 9) [] "w" true] "" false)
    (RNode.mk "*" (some 9) [] "w" true) "a" ["b"] [] [] rfl rfl

/-- C5: `lookup` returns Go's `nil` handler exactly when the method has
no tree, or the segment walk fails at some step, or the walk consumes
the whole path ending at a node whose stored handler is nil; in every
other case it returns the handler stored at the node the walk reaches,
never a partial or default match. -/
theorem c5_not_found_characterisation {α : Type} (r : Router α) (m p : String) :
    (lookup r m p =
      match treesGet r m with
      | none => (none, none)
      | some root =>
        match walkSegs root (splitPath p) [] with
        | none => (none, none)
        | some x => (x.1.handler, some x.2)) ∧
    ((lookup r m p).1 = none ↔
      treesGet r m = none ∨
      ∃ root, treesGet r m = some root ∧
        (walkSegs root (splitPath p) [] = none ∨
         ∃ x, walkSegs root (splitPath p) [] = some x ∧ x.1.handler = none)) := by
  have hmain : lookup r m p =
      (match treesGet r m with
       | none => (none, none)
       | some root =>
         match walkSegs root (splitPath p) [] with
         | none => (none, none)
         | some x => (x.1.handler, some x.2)) := by
    rw [lookup_eq]
    cases htr : treesGet r m with
    | none => rfl
    | some root =>
      show lookupSegs root (splitPath p) [] =
        (match walkSegs root (splitPath p) [] with
         | none => (none, none)
         | some x => (x.1.handler, some x.2))
      exact lookupSegs_eq_walk (splitPath p) root []
  refine ⟨hmain, ?_⟩
  rw [hmain]
  cases htr : treesGet r m with
  | none => simp
  | some root =>
    have hstep : (match some root with
        | none => ((none : Option α), (none : Option Params))
        | some root =>
          match walkSegs root (splitPath p) [] with
          | none => (none, none)
          | some x => (x.1.handler, some x.2)) =
        (match walkSegs root (splitPath p) [] with
         | none => ((none : Option α), (none : Option Params))
         | some x => (x.1.handler, some x.2)) := rfl
    rw [hstep]
    cases hwk : walkSegs root (splitPath p) [] with
    | none =>
      constructor
      · intro _
        exact Or.inr ⟨root, rfl, Or.inl hwk⟩
      · intro _
        rfl
    | some x =>
      constructor
      · intro h1
        exact Or.inr ⟨root, rfl, Or.inr ⟨x, hwk, h1⟩⟩
      · intro h2
        rcases h2 with h2 | ⟨root', hr', h3⟩
        · exact absurd h2 (by simp)
        · injection hr' with he
          subst he
          rcases h3 with h3 | ⟨x', hx', h4⟩
          · rw [hwk] at h3
            exact absurd h3 (by simp)
          · rw [hwk] at hx'
            injection hx' with he2
            subst he2
            exact h4

/-- C6: registering `/users/:uid` after `/users/:id` silently reuses
the existing parameter child: the tree holds a single parameter node
whose name is still `"id"` and whose handler is the later handler 2,
and `/users/7` returns handler 2 with `params["id"] = "7"` (no `"uid"`
key). -/
theorem c6_param_name_reuse :
    treesGet (handle (handle (newRouter (α := Nat)) "GET" "/users/:id" 1)
        "GET" "/users/:uid" 2) "GET" =
      some (RNode.mk "" none
        [RNode.mk "users" none [RNode.mk ":" (some 2) [] "id" false] "" false] "" false) ∧
    lookup (handle (handle (newRouter (α := Nat)) "GET" "/users/:id" 1)
        "GET" "/users/:uid" 2) "GET" "/users/7" = (some 2, some [("id", "7")]) :=
  ⟨rfl, rfl⟩

/-- C7: for every registration sequence, every purely literal path whose
most recent registration (same method, same split segments) carries
handler `h` looks up to exactly `h` with the empty (non-nil) parameter
map. -/
theorem c7_literal_lookup {α : Type} (regs : List (String × String × α)) (m p : String)
    (h : α) (hlit : ∀ s ∈ splitPath p, literalSeg s = true)
    (hlast : lastHandlerFor regs m (splitPath p) = some h) :
    lookup (applyRegs regs) m p = (some h, some []) :=
  lookup_of_lastHandler regs m p h hlit hlast

/-- C7 (witness): the literal-lookup theorem on the one-registration
sequence `GET /a/b`. -/
theorem c7_literal_lookup_witness :
    lookup (applyRegs [("GET", "/a/b", (5 : Nat))]) "GET" "/a/b" = (some 5, some []) :=
  c7_literal_lookup [("GET", "/a/b", 5)] "GET" "/a/b" 5 (by decide) (by decide)

/-- C9: leading and trailing slashes are insignificant for registration
and lookup, and a path that is empty after trimming (such as `""` or
`"/"`) resolves to the method root's own handler with an empty
parameter map. -/
theorem c9_slash_insensitive {α : Type} (r : Router α) (m p : String) (h : α) :
    handle r m ("/" ++ p) h = handle r m p h ∧
    handle r m (p ++ "/") h = handle r m p h ∧
    lookup r m ("/" ++ p) = lookup r m p ∧
    lookup r m (p ++ "/") = lookup r m p ∧
    (splitPath p = [] → ∀ root, treesGet r m = some root →
      lookup r m p = (root.handler, some [])) := by
  refine ⟨?_, ?_, ?_, ?_, ?_⟩
  · rw [handle_def r m ("/" ++ p) h, handle_def r m p h,
      insertGo_eq_insert, insertGo_eq_insert, splitPath_slash_append]
  · rw [handle_def r m (p ++ "/") h, handle_def r m p h,
      insertGo_eq_insert, insertGo_eq_insert, splitPath_append_slash]
  · rw [lookup_eq r m ("/" ++ p), lookup_eq r m p, splitPath_slash_append]
  · rw [lookup_eq r m (p ++ "/"), lookup_eq r m p, splitPath_append_slash]
  · intro hsp root htr
    rw [lookup_eq, htr, hsp]
    rfl

/-- C9 (witness): the slash-insensitivity theorem applied at the root
pattern: a router with a root handler 9 for GET resolves `"/"` to that
handler with an empty map. -/
theorem c9_slash_insensitive_witness :
    lookup (handle (newRouter (α := Nat)) "GET" "" 9) "GET" "/" = (some 9, some []) :=
  (c9_slash_insensitive (handle (newRouter (α := Nat)) "GET" "" 9) "GET" "/" 0).2.2.2.2
    (by decide) (RNode.mk "" (some 9) [] "" false) rfl

/-- C10: a wildcard never captures an empty remainder: with zero
segments left the walk returns the current node's handler without
consulting any child, and with `/files/*rest` as the only route both
`/files` and `/files/` are not-found (nil handler, the wildcard is not
selected). -/
theorem c10_wildcard_needs_segment {α : Type} (h : α) :
    (∀ (n : RNode α) (ps : Params), lookupSegs n [] ps = (n.handler, some ps)) ∧
    lookup (handle newRouter "GET" "/files/*rest" h) "GET" "/files" = (none, some []) ∧
    lookup (handle newRouter "GET" "/files/*rest" h) "GET" "/files/" = (none, some []) :=
  ⟨fun _ _ => rfl, rfl, rfl⟩

end Claims

end Blaze
